import Mathlib

/-!
Verification of the recurrence-relation solver (`ccp.py`,
class `RecurrenceRelationSolver`) against its specification.

The Python source is shallowly embedded:

* strings are `List Char` (wrapped in `String` at the API),
* the three `re` patterns of `parse_recurrence` are embedded as
  deterministic matchers (the patterns never need backtracking beyond
  the local greedy choices that the matchers reproduce),
* Python `int` / `float` values produced by the growth classifier are
  `PyRat` (`pint` / `pfloat`); IEEE-754 arithmetic in the complex
  divide-and-conquer path (built on `np.log`) is modelled by exact real
  arithmetic, which agrees with the floating-point run on every input
  exercised by the theorems below (all comparisons are far from the
  rounding scale, or exact),
* exceptions (`AttributeError` for the three `solve_using_*` methods
  that are called by `solve` but defined nowhere in the class,
  `ValueError` from `float(".")`, `TypeError` from comparing a float
  with `None`) are modelled with `Except PyError`,
* the mutable solver object is a `Session` record threaded explicitly;
  the step log keeps the structured payload of each `steps.append` call
  (the exact rendered text of steps is presentation, not behaviour),
* `execution_time` is wall-clock time; the model keeps only the fact
  of the assignment at the end of `solve` (`execution_time_written`),
  since only "was it recorded" is specified.
-/

namespace CCP

/-- Python regex class `\s` restricted to the ASCII whitespace used by the
    tool's inputs: space, tab, newline, carriage return, vertical tab,
    form feed. -/
def isPySpace (c : Char) : Bool :=
  c = ' ' || c = '\t' || c = '\n' || c = '\r' || c = '\x0b' || c = '\x0c'

/-- Python `str.lower`, restricted to ASCII plus the one non-ASCII letter
    (`Θ`) that the classifier's literals can meet. -/
def toLowerPy (c : Char) : Char :=
  if c = 'Θ' then 'θ' else c.toLower

/-- Python `str.strip()`: drop leading and trailing whitespace. -/
def stripL (s : List Char) : List Char :=
  ((s.dropWhile isPySpace).reverse.dropWhile isPySpace).reverse

/-- Python `int(...)` on a non-empty digit run. -/
def natOfDigits (ds : List Char) : ℕ :=
  ds.foldl (fun a c => 10 * a + (c.toNat - 48)) 0

/-- Match a literal prefix, returning the rest of the input. -/
def matchLit : List Char → List Char → Option (List Char)
  | [], s => some s
  | _ :: _, [] => none
  | p :: ps, c :: cs => if p = c then matchLit ps cs else none

/-- Python `pat in s` (substring test). -/
def containsStr (pat : List Char) : List Char → Bool
  | [] => pat.isPrefixOf []
  | c :: cs => pat.isPrefixOf (c :: cs) || containsStr pat cs

/-- The recurrence record produced by `parse_recurrence`
    (`self.recurrence`, a dict tagged by its `type` field). -/
inductive Recurrence where
  | complexDivideAndConquer (subproblems : List (ℕ × ℕ)) (f : String)
  | divideAndConquer (a b : ℕ) (f : String)
  | decreaseAndConquer (d : ℕ) (f : String)
deriving DecidableEq

/-- The growth categories returned by `parse_fn_growth`
    (`"constant"`, `"logarithmic"`, `"n_log"`, `"polynomial"`, `"unknown"`). -/
inductive GrowthCat where
  | constant
  | logarithmic
  | nLog
  | polynomial
  | unknown
deriving DecidableEq

/-- A Python number as produced by the classifier: either an `int`
    literal from the source (`0`, `1`) or a `float(...)` conversion of a
    decimal literal, modelled exactly as a rational. -/
inductive PyRat where
  | pint (n : ℤ)
  | pfloat (q : ℚ)
deriving DecidableEq

deriving instance DecidableEq for Except

/-- The Python exceptions the embedded code can raise. -/
inductive PyError where
  | attributeError (member : String)
  | valueError
  | typeError
deriving DecidableEq

/-- One `self.steps.append(...)` call, keeping the structured payload of
    the appended message. -/
inductive Step where
  | parsing (input : String)
  | identifiedComplex (count : ℕ) (f : String)
  | identifiedDivide (a b : ℕ) (f : String)
  | identifiedDecrease (d : ℕ) (f : String)
  | parseFailed
  | addedBaseCase (n : ℤ) (value : ℚ)
  | noRecurrence
  | complexDetected
  | usingIterativeExpansion
  | totalCoefficientSum (t : ℕ)
  | minimumDivisor (b : ℕ)
  | logRatios (rs : List ℝ)
  | maxLogRatio (r : ℝ)
  | formatting (raw : String)
  | formattedResult (s : String)

/-- The mutable state of a `RecurrenceRelationSolver` object.
    `asymptoticRaw` is the Python field `asymptotic_notation` (the raw,
    pre-formatting solution string stored by `format_solution`);
    `execution_time_written` records whether the assignment
    `self.execution_time = time.time() - start_time` was executed. -/
structure Session where
  recurrence : Option Recurrence := none
  base_cases : List (ℤ × ℚ) := []
  solution : Option String := none
  solution_method : Option String := none
  execution_time_written : Bool := false
  steps : List Step := []
  asymptoticRaw : Option String := none

/-- A freshly constructed solver (`__init__`). -/
def emptySession : Session := {}

/-! ### Parser

The three patterns of `parse_recurrence`:

pattern 1 (complex): `T\(n\)\s*=\s*((?:(?:\d+)?T\(n\s*/\s*\d+\)\s*\+?\s*)+)(.*)`
pattern 2 (simple):  `T\(n\)\s*=\s*(\d+)?T\(n\s*/\s*(\d+)\)\s*\+\s*(.+)`
pattern 3 (decrease): `T\(n\)\s*=\s*T\(n\s*-\s*(\d+)\)\s*\+\s*(.+)`

all used with `re.match` (anchored at the start, the rest of the input
is ignored; `.` does not match a newline). -/

/-- The common head `T\(n\)\s*=\s*` of all three patterns. -/
def matchHead (s : List Char) : Option (List Char) :=
  (matchLit ['T', '(', 'n', ')'] s).bind fun r1 =>
    (matchLit ['='] (r1.dropWhile isPySpace)).bind fun r2 =>
      some (r2.dropWhile isPySpace)

/-- One recursive term `(\d+)?T\(n\s*/\s*(\d+)\)`: optional coefficient
    (default 1), then `T(n`, optional spaces, `/`, optional spaces, a
    divisor digit run, `)`. -/
def matchTTerm (s : List Char) : Option (ℕ × ℕ × List Char) :=
  let ds := s.takeWhile Char.isDigit
  let r0 := s.dropWhile Char.isDigit
  (matchLit ['T', '(', 'n'] r0).bind fun r1 =>
    (matchLit ['/'] (r1.dropWhile isPySpace)).bind fun r2 =>
      let r3 := r2.dropWhile isPySpace
      let bs := r3.takeWhile Char.isDigit
      let r4 := r3.dropWhile Char.isDigit
      if bs == [] then none
      else
        (matchLit [')'] r4).bind fun r5 =>
          some (if ds == [] then 1 else natOfDigits ds, natOfDigits bs, r5)

/-- The `\s*\+?\s*` tail of one repetition unit of pattern 1. -/
def unitTail (s : List Char) : List Char :=
  let r := s.dropWhile isPySpace
  let r := match r with
    | '+' :: t => t
    | _ => r
  r.dropWhile isPySpace

/-- One repetition unit of pattern 1: a recursive term followed by
    `\s*\+?\s*`. -/
def matchUnit (s : List Char) : Option ((ℕ × ℕ) × List Char) :=
  (matchTTerm s).map fun x => ((x.1, x.2.1), unitTail x.2.2)

/-- The greedy one-or-more repetition of pattern 1's unit. Each unit
    consumes at least one character, so fuel equal to the input length
    never runs out. -/
def parseUnitsFuel : ℕ → List Char → List (ℕ × ℕ) × List Char
  | 0, s => ([], s)
  | fuel + 1, s =>
    match matchUnit s with
    | none => ([], s)
    | some (ab, r) =>
      let p := parseUnitsFuel fuel r
      (ab :: p.1, p.2)

/-- `\s*\+\s*(.+)` used by patterns 2 and 3: after the mandatory `+`,
    greedy whitespace (which may include newlines), then at least one
    non-newline character, captured to the end of the line and passed
    through `strip()`. When only whitespace remains, the regex engine
    backtracks `\s*` to let `.+` capture whitespace before a newline. -/
def residAfterPlus (t : List Char) : Option (List Char) :=
  let r := t.dropWhile isPySpace
  if r ≠ [] then some (stripL (r.takeWhile fun c => c ≠ '\n'))
  else if (t.takeWhile isPySpace).any (fun c => c ≠ '\n') then some []
  else none

/-- Pattern 1: one or more recursive terms, then `(.*)` as `f(n)`
    (defaulting to `"0"` when it strips to nothing). -/
def matchPattern1 (s : List Char) : Option (List (ℕ × ℕ) × String) :=
  (matchHead s).bind fun r0 =>
    let p := parseUnitsFuel r0.length r0
    if p.1 == [] then none
    else
      let f := stripL (p.2.takeWhile fun c => c ≠ '\n')
      some (p.1, if f == [] then "0" else String.mk f)

/-- Pattern 2: a single recursive term, a mandatory `+`, a mandatory
    non-empty residual. -/
def matchPattern2 (s : List Char) : Option (ℕ × ℕ × String) :=
  (matchHead s).bind fun r0 =>
    (matchTTerm r0).bind fun x =>
      (matchLit ['+'] (x.2.2.dropWhile isPySpace)).bind fun r7 =>
        (residAfterPlus r7).map fun f => (x.1, x.2.1, String.mk f)

/-- Pattern 3: `T(n-d)`, a mandatory `+`, a mandatory non-empty
    residual. -/
def matchPattern3 (s : List Char) : Option (ℕ × String) :=
  (matchHead s).bind fun r0 =>
    (matchLit ['T', '(', 'n'] r0).bind fun r1 =>
      (matchLit ['-'] (r1.dropWhile isPySpace)).bind fun r2 =>
        let r3 := r2.dropWhile isPySpace
        let ds := r3.takeWhile Char.isDigit
        let r4 := r3.dropWhile Char.isDigit
        if ds == [] then none
        else
          (matchLit [')'] r4).bind fun r5 =>
            (matchLit ['+'] (r5.dropWhile isPySpace)).bind fun r6 =>
              (residAfterPlus r6).map fun f => (natOfDigits ds, String.mk f)

/-- The pure core of `parse_recurrence`: try pattern 1, then pattern 2,
    then pattern 3. -/
def parseRecL (s : List Char) : Option Recurrence :=
  match matchPattern1 s with
  | some (subs, f) => some (.complexDivideAndConquer subs f)
  | none =>
    match matchPattern2 s with
    | some (a, b, f) => some (.divideAndConquer a b f)
    | none =>
      match matchPattern3 s with
      | some (d, f) => some (.decreaseAndConquer d f)
      | none => none

/-- `parse_recurrence` on a `String`. -/
def parseRec (s : String) : Option Recurrence :=
  parseRecL s.toList

/-- The `parse_recurrence` method: appends the parsing step, stores the
    recurrence and appends the identification step on success, appends
    the failure step otherwise (the previously stored recurrence is not
    cleared on failure). -/
def parse_recurrence (st : Session) (input : String) : Option Recurrence × Session :=
  let st0 : Session := { st with steps := st.steps ++ [.parsing input] }
  match parseRec input with
  | some r =>
    let idStep : Step :=
      match r with
      | .complexDivideAndConquer subs f => .identifiedComplex subs.length f
      | .divideAndConquer a b f => .identifiedDivide a b f
      | .decreaseAndConquer d f => .identifiedDecrease d f
    (some r, { st0 with recurrence := some r, steps := st0.steps ++ [idStep] })
  | none => (none, { st0 with steps := st0.steps ++ [.parseFailed] })

/-- Python dict assignment `self.base_cases[n] = value`: overwrite an
    existing key in place, otherwise append. -/
def updateAssoc (l : List (ℤ × ℚ)) (n : ℤ) (v : ℚ) : List (ℤ × ℚ) :=
  match l with
  | [] => [(n, v)]
  | (k, w) :: t => if k = n then (k, v) :: t else (k, w) :: updateAssoc t n v

/-- The `add_base_case` method. -/
def add_base_case (st : Session) (n : ℤ) (value : ℚ) : Session :=
  { st with
    base_cases := updateAssoc st.base_cases n value
    steps := st.steps ++ [.addedBaseCase n value] }

/-! ### Growth classifier (`parse_fn_growth`)

The exponent regex is `n\^?(?:\*\*)?\s*(\d*\.?\d*)` with `re.search`:
since everything after the leading `n` is optional, the search always
succeeds at the first `n` of the text (and only fails when the text has
no `n`). The capture group may be empty (falsy in Python) or a bare dot
`"."`, on which `float(...)` raises `ValueError`. -/

/-- The `\d*\.?\d*` capture together with the input remaining after it:
    a greedy digit run, an optional dot, a greedy digit run. -/
def decCaptureSplit (r : List Char) : List Char × List Char :=
  let d1 := r.takeWhile Char.isDigit
  let r1 := r.dropWhile Char.isDigit
  match r1 with
  | '.' :: r2 => (d1 ++ '.' :: r2.takeWhile Char.isDigit, r2.dropWhile Char.isDigit)
  | _ => (d1, r1)

/-- After an `n`: `\^?(?:\*\*)?\s*` then the numeric capture, returning
    the capture and the rest of the input. -/
def capSplit (r : List Char) : List Char × List Char :=
  let r1 := match r with
    | '^' :: t => t
    | _ => r
  let r2 := match r1 with
    | '*' :: '*' :: t => t
    | _ => r1
  decCaptureSplit (r2.dropWhile isPySpace)

/-- `re.search` for the exponent pattern: the capture at the first `n`
    of the text, `none` when the text has no `n`. -/
def searchPowerCapture : List Char → Option (List Char)
  | [] => none
  | c :: cs => if c = 'n' then some (capSplit cs).1 else searchPowerCapture cs

/-- Python `float(...)` on a `\d*\.?\d*` capture: fails (`ValueError`)
    on `"."` or `""`; exact rational value otherwise. -/
def pyFloatCap (cs : List Char) : Option ℚ :=
  let ip := cs.takeWhile Char.isDigit
  match cs.dropWhile Char.isDigit with
  | [] => if ip = [] then none else some (natOfDigits ip)
  | '.' :: fr =>
    if ip = [] ∧ fr = [] then none
    else some ((natOfDigits ip : ℚ) + (natOfDigits fr : ℚ) / (10 : ℚ) ^ fr.length)
  | _ => none

/-- Leading character class `[oOθΘ]` of the bracketed-growth pattern. -/
def oThetaAt (c : Char) : Bool :=
  c = 'o' || c = 'O' || c = 'θ' || c = 'Θ'

/-- `re.search` for `[oOθΘ]\(n\^?(?:\*\*)?\s*(\d*\.?\d*)\)`: scan for a
    position where the whole pattern matches and return its capture.
    (If the greedy capture is not followed by `)`, no shorter capture
    is either — the next character is a digit or a dot — so the scan
    moves on, exactly as the regex engine does.) -/
def oThetaCapture : List Char → Option (List Char)
  | [] => none
  | c :: cs =>
    if oThetaAt c then
      match matchLit ['(', 'n'] cs with
      | some r =>
        let p := capSplit r
        match p.2 with
        | ')' :: _ => some p.1
        | _ => oThetaCapture cs
      | none => oThetaCapture cs
    else oThetaCapture cs

/-- Normalisation at the top of `parse_fn_growth`:
    `f_n = f_n.strip().lower()`. -/
def normalizeF (f : String) : List Char :=
  (stripL f.toList).map toLowerPy

/-- The final fallback of `parse_fn_growth`: bracketed `O(...)`-style
    growth, else `("unknown", None)`. -/
def oThetaFallback (fn : List Char) : Except PyError (GrowthCat × Option PyRat) :=
  match oThetaCapture fn with
  | some cap =>
    if cap != [] then
      match pyFloatCap cap with
      | some q => .ok (.polynomial, some (.pfloat q))
      | none => .error .valueError
    else .ok (.polynomial, some (.pint 1))
  | none => .ok (.unknown, none)

/-- The `parse_fn_growth` method (a pure function of its argument). -/
def parse_fn_growth (f : String) : Except PyError (GrowthCat × Option PyRat) :=
  let fn := normalizeF f
  if fn == "1".toList || fn == "o(1)".toList || fn == "θ(1)".toList
      || containsStr "constant".toList fn then
    .ok (.constant, some (.pint 0))
  else if containsStr "log".toList fn || containsStr "ln".toList fn then
    if containsStr "n^".toList fn || containsStr "n**".toList fn then
      match searchPowerCapture fn with
      | some cap =>
        if cap != [] then
          match pyFloatCap cap with
          | some q => .ok (.nLog, some (.pfloat q))
          | none => .error .valueError
        else .ok (.nLog, some (.pint 1))
      | none => .ok (.nLog, some (.pint 1))
    else .ok (.logarithmic, some (.pint 0))
  else if containsStr ['n'] fn then
    match searchPowerCapture fn with
    | some cap =>
      if cap != [] then
        match pyFloatCap cap with
        | some q => .ok (.polynomial, some (.pfloat q))
        | none => .error .valueError
      else
        if !containsStr "n^".toList fn && !containsStr "n**".toList fn
            && !containsStr "n *".toList fn && !containsStr "n*".toList fn then
          .ok (.polynomial, some (.pint 1))
        else oThetaFallback fn
    | none => oThetaFallback fn
  else oThetaFallback fn

/-! ### Formatter (`format_solution`)

Python `str.replace` replaces all occurrences, left to right,
non-overlapping. `repGo` is fuelled: each step either copies one
character or consumes a whole (non-empty) occurrence of the pattern, so
fuel equal to the input length never runs out. -/

/-- One pass of `str.replace pat rep` with explicit fuel. -/
def repGo (pat rep : List Char) : ℕ → List Char → List Char
  | _, [] => []
  | 0, l => l
  | fuel + 1, c :: cs =>
    if pat.isPrefixOf (c :: cs) then rep ++ repGo pat rep fuel ((c :: cs).drop pat.length)
    else c :: repGo pat rep fuel cs

/-- Python `s.replace(pat, rep)` for a non-empty pattern (all the
    patterns `format_solution` uses are non-empty; an empty pattern is
    left as the identity). -/
def replaceL (s pat rep : List Char) : List Char :=
  if pat == [] then s else repGo pat rep s.length s

/-- The five substitutions of `format_solution`, in source order:
    `Theta`→`Θ`, `theta`→`Θ`, `O(`→`O(`, `n^2`→`n²`, `n^3`→`n³`. -/
def formatL (l : List Char) : List Char :=
  replaceL (replaceL (replaceL (replaceL (replaceL
    l "Theta".toList "Θ".toList)
    "theta".toList "Θ".toList)
    "O(".toList "O(".toList)
    "n^2".toList "n²".toList)
    "n^3".toList "n³".toList

/-- The pure substitution core of `format_solution`. -/
def formatStr (s : String) : String :=
  String.mk (formatL s.toList)

/-- The `format_solution` method: stores the raw string in
    `asymptotic_notation`, appends the before/after steps, returns the
    substituted string. -/
def format_solution (st : Session) (sol : String) : String × Session :=
  let out := formatStr sol
  (out,
    { st with
      asymptoticRaw := some sol
      steps := st.steps ++ [.formatting sol, .formattedResult out] })

/-! ### The complex divide-and-conquer numeric path

`np.log`-based float arithmetic is modelled by exact reals. For the
degenerate divisors `b ≤ 1` (which the parser does not reject) the
floats would be `±inf`/`nan`; `Real.log` maps them to `0`, so theorems
about this path restrict to divisors `≥ 2`, where the model is exact. -/

/-- The value of a classifier number as a real. -/
noncomputable def PyRat.toReal : PyRat → ℝ
  | .pint n => (n : ℝ)
  | .pfloat q => (q : ℝ)

/-- `[np.log(total_a) / np.log(sub['b']) for sub in subproblems]`. -/
noncomputable def ratiosR (totalA : ℕ) (bs : List ℕ) : List ℝ :=
  bs.map fun b => Real.log totalA / Real.log b

/-- Python `max(ratios)` (the parser guarantees at least one
    subproblem; on `[]`, where Python would raise, the model returns 0). -/
noncomputable def maxRatioR (totalA : ℕ) (bs : List ℕ) : ℝ :=
  match ratiosR totalA bs with
  | [] => 0
  | r :: rs => rs.foldl max r

/-- The raw solution string assembled by the complex path, with the
    interpolated Python number kept structured: `thetaPowLog p` is
    `f"Θ(n^{power} log n)"`, `thetaPowMax r` is `f"Θ(n^{max_ratio})"`,
    `thetaPow p` is `f"Θ(n^{power})"`. -/
inductive RawSolution where
  | thetaPowLog (p : PyRat)
  | thetaPowMax (r : ℝ)
  | thetaPow (p : PyRat)
  | thetaLogN
  | thetaOne
  | cannotDetermine

open Classical in
/-- The decision block of the complex path (lines 237–260 of the
    source), comparing `max_ratio` with the classified power. Comparing
    a float with `None` raises `TypeError` in Python. -/
noncomputable def complexDecision (max_ratio : ℝ) :
    GrowthCat × Option PyRat → Except PyError RawSolution
  | (.polynomial, some p) =>
    if |max_ratio - p.toReal| < 1e-10 then .ok (.thetaPowLog p)
    else if max_ratio > p.toReal then .ok (.thetaPowMax max_ratio)
    else .ok (.thetaPow p)
  | (.polynomial, none) => .error .typeError
  | (.logarithmic, _) =>
    if max_ratio > 0 then .ok (.thetaPowMax max_ratio) else .ok .thetaLogN
  | (.constant, _) =>
    if max_ratio > 0 then .ok (.thetaPowMax max_ratio) else .ok .thetaOne
  | (.nLog, some p) =>
    if max_ratio ≥ p.toReal then .ok (.thetaPowMax max_ratio) else .ok (.thetaPowLog p)
  | (.nLog, none) => .error .typeError
  | (.unknown, _) => .ok .cannotDetermine

/-- Python `str(...)` of a float holding the exact decimal value `q`
    (shortest round-trip representation, which for the short decimal
    literals the classifier can produce is the decimal expansion
    itself). -/
def ratFloatStr (q : ℚ) : String :=
  if q.den == 1 then toString q.num ++ ".0"
  else
    match (List.range 18).find? (fun k => (q * 10 ^ k).den == 1) with
    | some k =>
      let m := (q * 10 ^ k).num
      let ds := (toString m.natAbs).toList
      let ds := if ds.length ≤ k then List.replicate (k + 1 - ds.length) '0' ++ ds else ds
      (if m < 0 then "-" else "") ++ String.mk (ds.take (ds.length - k))
        ++ "." ++ String.mk (ds.drop (ds.length - k))
    | none => "<nondecimal float>"

/-- Python f-string interpolation of a classifier number:
    `str(int)` or `str(float)`. -/
def pyStr : PyRat → String
  | .pint n => toString n
  | .pfloat q => ratFloatStr q

open Classical in
/-- Python `str(...)` of the float `max_ratio`, modelled for integral
    values (the only ones any verified scenario renders); non-integral
    reals get an unspecified placeholder. -/
noncomputable def floatStr (r : ℝ) : String :=
  if h : ∃ n : ℤ, (n : ℝ) = r then toString (Classical.choose h) ++ ".0"
  else "<float>"

/-- Assemble the f-string for a structured raw solution. -/
noncomputable def renderSolution : RawSolution → String
  | .thetaPowLog p => "Θ(n^" ++ pyStr p ++ " log n)"
  | .thetaPowMax r => "Θ(n^" ++ floatStr r ++ ")"
  | .thetaPow p => "Θ(n^" ++ pyStr p ++ ")"
  | .thetaLogN => "Θ(log n)"
  | .thetaOne => "Θ(1)"
  | .cannotDetermine => "Cannot determine asymptotic behavior for complex recurrence"

/-- The `solve` method. The complex divide-and-conquer branch returns
    before `execution_time` is assigned; every other branch calls one of
    `solve_using_master_theorem` / `solve_using_substitution` /
    `solve_using_iteration`, none of which is defined anywhere in the
    class, so Python raises `AttributeError` there and the assignment at
    the end of the method is never reached. -/
noncomputable def solve (st : Session) (method : Option String) :
    Except PyError (Option String × Session) :=
  match st.recurrence with
  | none => .ok (none, { st with steps := st.steps ++ [.noRecurrence] })
  | some r =>
    match r with
    | .complexDivideAndConquer subs f =>
      let st1 : Session :=
        { st with
          steps := st.steps ++ [.complexDetected, .usingIterativeExpansion]
          solution_method := some "Iterative Expansion" }
      let total_a := (subs.map Prod.fst).sum
      let min_b := match subs.map Prod.snd with
        | [] => 0
        | b :: bs => bs.foldl min b
      let st2 : Session :=
        { st1 with steps := st1.steps ++ [.totalCoefficientSum total_a, .minimumDivisor min_b] }
      match parse_fn_growth f with
      | .error e => .error e
      | .ok growth =>
        let ratios := ratiosR total_a (subs.map Prod.snd)
        let mr := maxRatioR total_a (subs.map Prod.snd)
        let st3 : Session :=
          { st2 with steps := st2.steps ++ [.logRatios ratios, .maxLogRatio mr] }
        match complexDecision mr growth with
        | .error e => .error e
        | .ok raw =>
          let rawStr := renderSolution raw
          let fmt := format_solution st3 rawStr
          .ok (some fmt.1, { fmt.2 with solution := some fmt.1 })
    | .divideAndConquer _ _ _ =>
      if method == some "master" then .error (.attributeError "solve_using_master_theorem")
      else if method == some "substitution" then .error (.attributeError "solve_using_substitution")
      else if method == some "iteration" then .error (.attributeError "solve_using_iteration")
      else .error (.attributeError "solve_using_master_theorem")
    | .decreaseAndConquer _ _ =>
      if method == some "substitution" then .error (.attributeError "solve_using_substitution")
      else if method == some "iteration" then .error (.attributeError "solve_using_iteration")
      else .error (.attributeError "solve_using_iteration")

/-! ### Lemmas about `str.replace` -/

lemma repGo_nil (pat rep : List Char) (fuel : ℕ) : repGo pat rep fuel [] = [] := by
  cases fuel <;> rfl

lemma repGo_zero (pat rep : List Char) (l : List Char) : repGo pat rep 0 l = l := by
  cases l <;> rfl

lemma repGo_succ (pat rep : List Char) (fuel : ℕ) (c : Char) (cs : List Char) :
    repGo pat rep (fuel + 1) (c :: cs) =
      if pat.isPrefixOf (c :: cs) then
        rep ++ repGo pat rep fuel ((c :: cs).drop pat.length)
      else c :: repGo pat rep fuel cs := rfl

lemma eq_nil_of_infix_nil {P : List Char} (h : P <:+: ([] : List Char)) : P = [] :=
  List.length_eq_zero.mp (Nat.le_zero.mp h.length_le)

/-- An occurrence inside a concatenation lies in the left part, in the
    right part, or straddles the boundary. -/
lemma infix_append_cases {P a b : List Char} (h : P <:+: a ++ b) :
    P <:+: a ∨ P <:+: b ∨
      ∃ P₁ P₂, P = P₁ ++ P₂ ∧ P₁ ≠ [] ∧ P₂ ≠ [] ∧ P₁ <:+ a ∧ P₂ <+: b := by
  obtain ⟨u, v, huv⟩ := h
  have huv' : (u ++ P) ++ v = a ++ b := by simpa [List.append_assoc] using huv
  rcases List.append_eq_append_iff.mp huv' with ⟨w, hw1, hw2⟩ | ⟨w, hw1, hw2⟩
  · exact Or.inl ⟨u, w, by simp [hw1, List.append_assoc]⟩
  · rcases List.append_eq_append_iff.mp hw1 with ⟨k, hk1, hk2⟩ | ⟨k, hk1, hk2⟩
    · by_cases hk : k = []
      · subst hk
        simp only [List.nil_append] at hk2
        exact Or.inr (Or.inl ⟨[], v, by simp [hw2, ← hk2]⟩)
      · by_cases hw : w = []
        · subst hw
          rw [List.append_nil] at hk2
          exact Or.inl (show P <:+ a from ⟨u, by rw [hk1, hk2]⟩).isInfix
        · exact Or.inr (Or.inr ⟨k, w, hk2, hk, hw, ⟨u, hk1.symm⟩, ⟨v, hw2.symm⟩⟩)
    · exact Or.inr (Or.inl ⟨k, v, by simp [hw2, hk2, List.append_assoc]⟩)

/-- A prefix of a replacement result transfers to the original input,
    provided no suffix of the ambient pattern `P` is prefix-comparable
    with the replacement text. -/
lemma prefix_transfer (pat rep P : List Char)
    (hC : ∀ Q, Q <:+ P → Q = [] ∨ (¬ Q <+: rep ∧ ¬ rep <+: Q)) :
    ∀ fuel Q t, Q <:+ P → Q <+: repGo pat rep fuel t → Q <+: t := by
  intro fuel
  induction fuel with
  | zero =>
    intro Q t _ h
    rwa [repGo_zero] at h
  | succ n ih =>
    intro Q t hQP h
    cases t with
    | nil => rwa [repGo_nil] at h
    | cons c cs =>
      rw [repGo_succ] at h
      cases Q with
      | nil => exact List.nil_prefix
      | cons q qs =>
        by_cases hp : pat.isPrefixOf (c :: cs)
        · rw [if_pos hp] at h
          rcases hC _ hQP with hnil | ⟨h1, h2⟩
          · exact absurd hnil (List.cons_ne_nil q qs)
          · rcases List.prefix_or_prefix_of_prefix h (List.prefix_append rep _) with hqr | hrq
            · exact absurd hqr h1
            · exact absurd hrq h2
        · rw [if_neg hp] at h
          rcases List.cons_prefix_cons.mp h with ⟨rfl, hq⟩
          exact List.cons_prefix_cons.mpr
            ⟨rfl, ih qs cs ((List.suffix_cons _ _).trans hQP) hq⟩

/-- Master occurrence lemma for `str.replace`: the target `P` cannot
    occur in the output if (i) `P` does not occur inside the replacement
    text, (ii) no boundary overlap between the replacement text and `P`
    is possible, and (iii) every suffix of the input starting with `P`
    also starts with the pattern being replaced. -/
lemma repGo_no_occurrence (pat rep P : List Char) (hpat : pat ≠ []) (hP : P ≠ [])
    (hA : ¬ P <:+: rep)
    (hB : ∀ P₁, P₁ <+: P → P₁ = [] ∨ ¬ P₁ <:+ rep)
    (hC : ∀ Q, Q <:+ P → Q = [] ∨ (¬ Q <+: rep ∧ ¬ rep <+: Q)) :
    ∀ fuel s, s.length ≤ fuel → (∀ t, t <:+ s → P <+: t → pat <+: t) →
      ¬ P <:+: repGo pat rep fuel s := by
  intro fuel
  induction fuel with
  | zero =>
    intro s hlen _
    have hs : s = [] := List.length_eq_zero.mp (Nat.le_zero.mp hlen)
    subst hs
    rw [repGo_nil]
    exact fun hinf => hP (eq_nil_of_infix_nil hinf)
  | succ n ih =>
    intro s hlen hsub
    cases s with
    | nil =>
      rw [repGo_nil]
      exact fun hinf => hP (eq_nil_of_infix_nil hinf)
    | cons c cs =>
      rw [repGo_succ]
      by_cases hp : pat.isPrefixOf (c :: cs)
      · rw [if_pos hp]
        intro hinf
        rcases infix_append_cases hinf with h1 | h2 | ⟨P₁, P₂, hPeq, hP1, hP2, hsuf, -⟩
        · exact hA h1
        · have hone : 1 ≤ pat.length := List.length_pos.mpr hpat
          have hlen' : ((c :: cs).drop pat.length).length ≤ n := by
            rw [List.length_drop]
            simp only [List.length_cons] at hlen ⊢
            omega
          have hsub' : ∀ t, t <:+ (c :: cs).drop pat.length → P <+: t → pat <+: t :=
            fun t ht => hsub t (ht.trans (List.drop_suffix _ _))
          exact ih _ hlen' hsub' h2
        · rcases hB P₁ ⟨P₂, hPeq.symm⟩ with hnil | hns
          · exact hP1 hnil
          · exact hns hsuf
      · rw [if_neg hp]
        intro hinf
        rcases List.infix_cons_iff.mp hinf with h1 | h2
        · cases P with
          | nil => exact hP rfl
          | cons q qs =>
            rcases List.cons_prefix_cons.mp h1 with ⟨hqc, hq⟩
            have hqs : qs <+: cs :=
              prefix_transfer pat rep (q :: qs) hC n qs cs (List.suffix_cons q qs) hq
            have hPf : (q :: qs) <+: (c :: cs) := by
              rw [hqc]
              exact List.cons_prefix_cons.mpr ⟨rfl, hqs⟩
            exact hp (List.isPrefixOf_iff_prefix.mpr (hsub _ (List.suffix_refl _) hPf))
        · have hlen' : cs.length ≤ n := by
            simp only [List.length_cons] at hlen
            omega
          have hsub' : ∀ t, t <:+ cs → P <+: t → pat <+: t :=
            fun t ht => hsub t (ht.trans (List.suffix_cons c cs))
          exact ih _ hlen' hsub' h2

lemma repGo_eq_of_no_occurrence (pat rep : List Char) :
    ∀ fuel s, ¬ pat <:+: s → repGo pat rep fuel s = s := by
  intro fuel
  induction fuel with
  | zero => intro s _; exact repGo_zero _ _ _
  | succ n ih =>
    intro s hs
    cases s with
    | nil => exact repGo_nil _ _ _
    | cons c cs =>
      rw [repGo_succ, if_neg fun hp => hs (List.isPrefixOf_iff_prefix.mp hp).isInfix,
        ih cs fun h => hs (List.infix_cons_iff.mpr (Or.inr h))]

lemma repGo_self (pat : List Char) (hpat : pat ≠ []) :
    ∀ fuel s, s.length ≤ fuel → repGo pat pat fuel s = s := by
  intro fuel
  induction fuel with
  | zero =>
    intro s hlen
    have hs : s = [] := List.length_eq_zero.mp (Nat.le_zero.mp hlen)
    subst hs
    exact repGo_nil _ _ _
  | succ n ih =>
    intro s hlen
    cases s with
    | nil => exact repGo_nil _ _ _
    | cons c cs =>
      rw [repGo_succ]
      by_cases hp : pat.isPrefixOf (c :: cs)
      · rw [if_pos hp]
        obtain ⟨t, ht⟩ := List.isPrefixOf_iff_prefix.mp hp
        have hone : 1 ≤ pat.length := List.length_pos.mpr hpat
        have hlen' : ((c :: cs).drop pat.length).length ≤ n := by
          rw [List.length_drop]
          simp only [List.length_cons] at hlen ⊢
          omega
        rw [ih _ hlen', ← ht, List.drop_left]
      · have hlen' : cs.length ≤ n := by
          simp only [List.length_cons] at hlen
          omega
        rw [if_neg hp, ih _ hlen']

lemma replaceL_no_occurrence (s pat rep : List Char) (hpat : pat ≠ [])
    (hA : ¬ pat <:+: rep)
    (hB : ∀ P₁ ∈ pat.inits, P₁ = [] ∨ ¬ P₁ <:+ rep)
    (hC : ∀ Q ∈ pat.tails, Q = [] ∨ (¬ Q <+: rep ∧ ¬ rep <+: Q)) :
    ¬ pat <:+: replaceL s pat rep := by
  rw [replaceL, if_neg (by simp [hpat])]
  exact repGo_no_occurrence pat rep pat hpat hpat hA
    (fun P₁ hp => hB P₁ ((List.mem_inits _ _).mpr hp))
    (fun Q hq => hC Q ((List.mem_tails _ _).mpr hq))
    s.length s le_rfl (fun _ _ h => h)

lemma replaceL_preserves_no_occurrence (s pat rep P : List Char) (hP : P ≠ [])
    (hpat : pat ≠ [])
    (hA : ¬ P <:+: rep)
    (hB : ∀ P₁ ∈ P.inits, P₁ = [] ∨ ¬ P₁ <:+ rep)
    (hC : ∀ Q ∈ P.tails, Q = [] ∨ (¬ Q <+: rep ∧ ¬ rep <+: Q))
    (hs : ¬ P <:+: s) : ¬ P <:+: replaceL s pat rep := by
  rw [replaceL, if_neg (by simp [hpat])]
  exact repGo_no_occurrence pat rep P hpat hP hA
    (fun P₁ hp => hB P₁ ((List.mem_inits _ _).mpr hp))
    (fun Q hq => hC Q ((List.mem_tails _ _).mpr hq))
    s.length s le_rfl
    (fun t ht hPt => False.elim (hs (hPt.isInfix.trans ht.isInfix)))

lemma replaceL_eq_of_no_occurrence (s pat rep : List Char) (hs : ¬ pat <:+: s) :
    replaceL s pat rep = s := by
  rw [replaceL]
  by_cases hpat : pat = []
  · rw [if_pos (by simp [hpat])]
  · rw [if_neg (by simp [hpat])]
    exact repGo_eq_of_no_occurrence pat rep s.length s hs

lemma replaceL_self (s pat : List Char) : replaceL s pat pat = s := by
  rw [replaceL]
  by_cases hpat : pat = []
  · rw [if_pos (by simp [hpat])]
  · rw [if_neg (by simp [hpat])]
    exact repGo_self pat hpat s.length s le_rfl

/-- The formatter's substitutions stabilise after one pass. -/
lemma formatL_idem (l : List Char) : formatL (formatL l) = formatL l := by
  unfold formatL
  simp only [replaceL_self]
  set t1 := replaceL l "Theta".toList "Θ".toList with ht1
  set t2 := replaceL t1 "theta".toList "Θ".toList with ht2
  set t4 := replaceL t2 "n^2".toList "n²".toList with ht4
  set t5 := replaceL t4 "n^3".toList "n³".toList with ht5
  have hTheta5 : ¬ "Theta".toList <:+: t5 := by
    rw [ht5]
    refine replaceL_preserves_no_occurrence _ _ _ _ (by decide) (by decide)
      (by decide) (by decide) (by decide) ?_
    rw [ht4]
    refine replaceL_preserves_no_occurrence _ _ _ _ (by decide) (by decide)
      (by decide) (by decide) (by decide) ?_
    rw [ht2]
    refine replaceL_preserves_no_occurrence _ _ _ _ (by decide) (by decide)
      (by decide) (by decide) (by decide) ?_
    rw [ht1]
    exact replaceL_no_occurrence _ _ _ (by decide) (by decide) (by decide) (by decide)
  have htheta5 : ¬ "theta".toList <:+: t5 := by
    rw [ht5]
    refine replaceL_preserves_no_occurrence _ _ _ _ (by decide) (by decide)
      (by decide) (by decide) (by decide) ?_
    rw [ht4]
    refine replaceL_preserves_no_occurrence _ _ _ _ (by decide) (by decide)
      (by decide) (by decide) (by decide) ?_
    rw [ht2]
    exact replaceL_no_occurrence _ _ _ (by decide) (by decide) (by decide) (by decide)
  have hn25 : ¬ "n^2".toList <:+: t5 := by
    rw [ht5]
    refine replaceL_preserves_no_occurrence _ _ _ _ (by decide) (by decide)
      (by decide) (by decide) (by decide) ?_
    rw [ht4]
    exact replaceL_no_occurrence _ _ _ (by decide) (by decide) (by decide) (by decide)
  have hn35 : ¬ "n^3".toList <:+: t5 := by
    rw [ht5]
    exact replaceL_no_occurrence _ _ _ (by decide) (by decide) (by decide) (by decide)
  rw [replaceL_eq_of_no_occurrence _ _ _ hTheta5, replaceL_eq_of_no_occurrence _ _ _ htheta5,
    replaceL_eq_of_no_occurrence _ _ _ hn25, replaceL_eq_of_no_occurrence _ _ _ hn35]

/-! ### Lemmas about the complex-path numerics -/

lemma complexDecision_poly_tie (mr : ℝ) (p : PyRat)
    (h : |mr - p.toReal| < 1e-10) :
    complexDecision mr (.polynomial, some p) = .ok (.thetaPowLog p) := by
  simp only [complexDecision]
  rw [if_pos h]

lemma complexDecision_poly_gt (mr : ℝ) (p : PyRat)
    (h1 : ¬ |mr - p.toReal| < 1e-10) (h2 : mr > p.toReal) :
    complexDecision mr (.polynomial, some p) = .ok (.thetaPowMax mr) := by
  simp only [complexDecision]
  rw [if_neg h1, if_pos h2]

lemma complexDecision_poly_le (mr : ℝ) (p : PyRat)
    (h1 : ¬ |mr - p.toReal| < 1e-10) (h2 : ¬ mr > p.toReal) :
    complexDecision mr (.polynomial, some p) = .ok (.thetaPow p) := by
  simp only [complexDecision]
  rw [if_neg h1, if_neg h2]

lemma complexDecision_log_pos (mr : ℝ) (po : Option PyRat) (h : mr > 0) :
    complexDecision mr (.logarithmic, po) = .ok (.thetaPowMax mr) := by
  cases po <;> simp only [complexDecision] <;> rw [if_pos h]

lemma maxRatioR_single (a b : ℕ) :
    maxRatioR a [b] = Real.log a / Real.log b := rfl

lemma maxRatioR_two_two : maxRatioR 2 [2] = 1 := by
  rw [maxRatioR_single]
  exact div_self (Real.log_pos (by norm_num)).ne'

lemma maxRatioR_two_two_six : maxRatioR 2 [2, 6] = 1 := by
  have h2 : Real.log ((2 : ℕ) : ℝ) / Real.log ((2 : ℕ) : ℝ) = 1 :=
    div_self (Real.log_pos (by norm_num)).ne'
  have h6pos : (0 : ℝ) < Real.log ((6 : ℕ) : ℝ) := Real.log_pos (by norm_num)
  have h26 : Real.log ((2 : ℕ) : ℝ) / Real.log ((6 : ℕ) : ℝ) ≤ 1 :=
    (div_le_one h6pos).mpr (Real.log_le_log (by norm_num) (by norm_num))
  show List.foldl max (Real.log ((2 : ℕ) : ℝ) / Real.log ((2 : ℕ) : ℝ))
      [Real.log ((2 : ℕ) : ℝ) / Real.log ((6 : ℕ) : ℝ)] = 1
  rw [List.foldl_cons, List.foldl_nil, h2]
  exact max_eq_left h26

lemma pint_one_toReal : (PyRat.pint 1).toReal = 1 := by
  simp [PyRat.toReal]

lemma floatStr_intCast (n : ℤ) : floatStr (n : ℝ) = toString n ++ ".0" := by
  unfold floatStr
  rw [dif_pos ⟨n, rfl⟩]
  have h := Classical.choose_spec (⟨n, rfl⟩ : ∃ m : ℤ, (m : ℝ) = (n : ℝ))
  have h' : Classical.choose (⟨n, rfl⟩ : ∃ m : ℤ, (m : ℝ) = (n : ℝ)) = n := by
    exact_mod_cast h
  rw [h']

lemma floatStr_one : floatStr (1 : ℝ) = "1.0" := by
  have h : floatStr ((1 : ℤ) : ℝ) = toString (1 : ℤ) ++ ".0" := floatStr_intCast 1
  rw [show ((1 : ℤ) : ℝ) = (1 : ℝ) by norm_num] at h
  rw [h]
  rfl

/-! ### Concrete computations -/

lemma parse_c2_session :
    (parse_recurrence emptySession "T(n) = 2T(n/2) + n").2 =
      { recurrence := some (.complexDivideAndConquer [(2, 2)] "n")
        steps := [.parsing "T(n) = 2T(n/2) + n", .identifiedComplex 1 "n"] } := rfl

lemma growth_n : parse_fn_growth "n" = .ok (.polynomial, some (.pint 1)) := rfl

lemma solve_c2 :
    ∃ st, solve (parse_recurrence emptySession "T(n) = 2T(n/2) + n").2 none =
      .ok (some "Θ(n^1 log n)", st) ∧ st.execution_time_written = false ∧
      st.solution_method = some "Iterative Expansion" := by
  rw [parse_c2_session]
  have hcd : complexDecision (maxRatioR 2 [2]) (.polynomial, some (.pint 1)) =
      .ok (.thetaPowLog (.pint 1)) := by
    rw [maxRatioR_two_two]
    refine complexDecision_poly_tie _ _ ?_
    rw [pint_one_toReal]
    norm_num
  simp only [solve, growth_n, List.map_cons, List.map_nil, List.sum_cons, List.sum_nil]
  norm_num
  rw [hcd]
  exact ⟨_, rfl, rfl, rfl⟩

lemma parse_c5_session :
    (parse_recurrence emptySession "T(n) = T(n/2) + T(n/6) + n*log(n)").2 =
      { recurrence := some (.complexDivideAndConquer [(1, 2), (1, 6)] "n*log(n)")
        steps := [.parsing "T(n) = T(n/2) + T(n/6) + n*log(n)",
          .identifiedComplex 2 "n*log(n)"] } := rfl

lemma growth_nlogn :
    parse_fn_growth "n*log(n)" = .ok (.logarithmic, some (.pint 0)) := rfl

lemma solve_c5 :
    ∃ st, solve (parse_recurrence emptySession "T(n) = T(n/2) + T(n/6) + n*log(n)").2 none =
      .ok (some "Θ(n^1.0)", st) := by
  rw [parse_c5_session]
  have hcd : complexDecision (1 : ℝ) (.logarithmic, some (.pint 0)) =
      .ok (.thetaPowMax 1) := complexDecision_log_pos _ _ one_pos
  simp only [solve, growth_nlogn, List.map_cons, List.map_nil, List.sum_cons, List.sum_nil]
  norm_num
  rw [maxRatioR_two_two_six, hcd]
  simp only [renderSolution]
  rw [floatStr_one]
  exact ⟨_, rfl⟩

lemma parse_dec_session :
    (parse_recurrence emptySession "T(n) = T(n-1) + 1").2 =
      { recurrence := some (.decreaseAndConquer 1 "1")
        steps := [.parsing "T(n) = T(n-1) + 1", .identifiedDecrease 1 "1"] } := rfl

/-! ### Claim theorems -/

/-- Claim C1 (code_bug evidence): on the parsed decrease-and-conquer
    recurrence T(n) = T(n-1) + 1, every method hint (including none)
    makes solve raise AttributeError, because the dispatched
    solve_using_* methods are defined nowhere in the class — the claim
    that solve never raises and returns a string or None is violated. -/
theorem c1_solve_raises (m : Option String) :
    ∃ member, solve (parse_recurrence emptySession "T(n) = T(n-1) + 1").2 m =
      .error (.attributeError member) := by
  rw [parse_dec_session]
  rcases m with _ | str
  · exact ⟨"solve_using_iteration", rfl⟩
  · by_cases hs : str = "substitution"
    · subst hs
      exact ⟨"solve_using_substitution", rfl⟩
    · by_cases hi : str = "iteration"
      · subst hi
        exact ⟨"solve_using_iteration", rfl⟩
      · refine ⟨"solve_using_iteration", ?_⟩
        have h1 : (some str == some "substitution") = false := by simp [hs]
        have h2 : (some str == some "iteration") = false := by simp [hi]
        simp [solve, h1, h2]

/-- Claim C2 counterexample: parsing T(n) = 2T(n/2) + n and solving with
    no hint returns "Θ(n^1 log n)" (the exponent is rendered), not the
    claimed "Θ(n log n)". -/
theorem c2_counterexample :
    (∃ st, solve (parse_recurrence emptySession "T(n) = 2T(n/2) + n").2 none =
      .ok (some "Θ(n^1 log n)", st)) ∧ "Θ(n^1 log n)" ≠ "Θ(n log n)" := by
  obtain ⟨st, h, -, -⟩ := solve_c2
  exact ⟨⟨st, h⟩, by decide⟩

/-- Claim C2 (amended): parsing T(n) = 2T(n/2) + n and calling solve with
    no method hint returns the solution string "Θ(n^1 log n)" — the tie
    case (critical exponent 1 equals the f-exponent 1), reached through
    the complex divide-and-conquer path, with the exponent rendered
    explicitly as the Python int 1. -/
theorem c2_amended :
    ∃ st, solve (parse_recurrence emptySession "T(n) = 2T(n/2) + n").2 none =
      .ok (some "Θ(n^1 log n)", st) := by
  obtain ⟨st, h, -, -⟩ := solve_c2
  exact ⟨st, h⟩

/-- Claim C3: every input accepted by the simple divide-and-conquer
    pattern (pattern 2) is also accepted by the complex pattern
    (pattern 1), which is tried first; consequently parse_recurrence
    yields a complex_divide_and_conquer record (with at least one
    subproblem) on such inputs and never a divide_and_conquer one. -/
theorem c3_pattern_subsumption (s : List Char)
    (h : (matchPattern2 s).isSome = true) :
    (matchPattern1 s).isSome = true ∧
      ∃ subs f, parseRecL s = some (.complexDivideAndConquer subs f) ∧ subs ≠ [] := by
  obtain ⟨v2, hv2⟩ := Option.isSome_iff_exists.mp h
  rw [matchPattern2] at hv2
  cases hh : matchHead s with
  | none =>
    rw [hh] at hv2
    simp at hv2
  | some r0 =>
    rw [hh] at hv2
    simp only [Option.some_bind] at hv2
    cases ht : matchTTerm r0 with
    | none =>
      rw [ht] at hv2
      simp at hv2
    | some x =>
      have hr0ne : r0 ≠ [] := by
        intro he
        rw [he] at ht
        exact Option.noConfusion ((rfl : matchTTerm [] = none).symm.trans ht)
      obtain ⟨c, cs, rfl⟩ := List.exists_cons_of_ne_nil hr0ne
      have hu : matchUnit (c :: cs) = some ((x.1, x.2.1), unitTail x.2.2) := by
        rw [matchUnit, ht]
        rfl
      have hpu : parseUnitsFuel (c :: cs).length (c :: cs) =
          ((x.1, x.2.1) :: (parseUnitsFuel cs.length (unitTail x.2.2)).1,
            (parseUnitsFuel cs.length (unitTail x.2.2)).2) := by
        rw [show (c :: cs).length = cs.length + 1 from rfl, parseUnitsFuel, hu]
      have hp1 : matchPattern1 s =
          some ((x.1, x.2.1) :: (parseUnitsFuel cs.length (unitTail x.2.2)).1,
            let f := stripL ((parseUnitsFuel cs.length (unitTail x.2.2)).2.takeWhile
              fun c => c ≠ '\n')
            if f == [] then "0" else String.mk f) := by
        rw [matchPattern1, hh]
        simp only [Option.some_bind]
        rw [hpu]
        rfl
      refine ⟨by rw [hp1]; rfl, ?_⟩
      rw [parseRecL, hp1]
      exact ⟨_, _, rfl, List.cons_ne_nil _ _⟩

/-- Claim C3 witness at the concrete input T(n) = 2T(n/2) + n. -/
theorem c3_witness :
    (matchPattern2 "T(n) = 2T(n/2) + n".toList).isSome = true ∧
      ((matchPattern1 "T(n) = 2T(n/2) + n".toList).isSome = true ∧
        ∃ subs f, parseRecL "T(n) = 2T(n/2) + n".toList =
          some (.complexDivideAndConquer subs f) ∧ subs ≠ []) :=
  ⟨by decide, c3_pattern_subsumption _ (by decide)⟩

/-- Claim C4 counterexample: for a = b = 2 (critical exponent e = 1) and
    f-text n^0.99999999999 (classified exponent p = 1 - 1e-11 < e), the
    claim's rows predict Θ(n^e), but the tie row fires first and yields
    Θ(n^p log n) — with the power p, not e. -/
theorem c4_counterexample :
    parse_fn_growth "n^0.99999999999" =
      .ok (.polynomial, some (.pfloat (99999999999 / 100000000000))) ∧
    (PyRat.pfloat (99999999999 / 100000000000)).toReal < maxRatioR 2 [2] ∧
    complexDecision (maxRatioR 2 [2])
        (.polynomial, some (.pfloat (99999999999 / 100000000000))) =
      .ok (.thetaPowLog (.pfloat (99999999999 / 100000000000))) ∧
    complexDecision (maxRatioR 2 [2])
        (.polynomial, some (.pfloat (99999999999 / 100000000000))) ≠
      .ok (.thetaPowMax (maxRatioR 2 [2])) := by
  have hlt : (PyRat.pfloat (99999999999 / 100000000000)).toReal < maxRatioR 2 [2] := by
    rw [maxRatioR_two_two]
    show ((99999999999 / 100000000000 : ℚ) : ℝ) < 1
    norm_num
  have hcd : complexDecision (maxRatioR 2 [2])
      (.polynomial, some (.pfloat (99999999999 / 100000000000))) =
      .ok (.thetaPowLog (.pfloat (99999999999 / 100000000000))) := by
    rw [maxRatioR_two_two]
    refine complexDecision_poly_tie _ _ ?_
    show |1 - ((99999999999 / 100000000000 : ℚ) : ℝ)| < 1e-10
    rw [abs_of_nonneg (by norm_num)]
    norm_num
  have hval : (99999999999 / 100000000000 : ℚ) =
      ((0 : ℕ) : ℚ) + ((99999999999 : ℕ) : ℚ) / (10 : ℚ) ^ (11 : ℕ) := by norm_num
  refine ⟨?_, hlt, hcd, ?_⟩
  · rw [hval]
    rfl
  · rw [hcd]
    simp

/-- Claim C4 (amended): for a single-subproblem divide-and-conquer
    recurrence with divisor b ≥ 2 whose right-hand side classifies as
    polynomial with exponent p, the complex-path decision table first
    tests the tie |e - p| < 1e-10 (yielding Θ(n^p log n), rendered with
    p); otherwise Θ(n^e) when e > p and Θ(n^p) when e ≤ p, where
    e = log a / log b is the critical exponent (= maxRatioR). -/
theorem c4_amended (a b : ℕ) (f : String) (p : PyRat) (hb : 2 ≤ b)
    (hcls : parse_fn_growth f = .ok (.polynomial, some p)) :
    maxRatioR a [b] = Real.log a / Real.log b ∧
    (|maxRatioR a [b] - p.toReal| < 1e-10 →
      complexDecision (maxRatioR a [b]) (.polynomial, some p) =
        .ok (.thetaPowLog p)) ∧
    (¬ |maxRatioR a [b] - p.toReal| < 1e-10 → p.toReal < maxRatioR a [b] →
      complexDecision (maxRatioR a [b]) (.polynomial, some p) =
        .ok (.thetaPowMax (maxRatioR a [b]))) ∧
    (¬ |maxRatioR a [b] - p.toReal| < 1e-10 → ¬ p.toReal < maxRatioR a [b] →
      complexDecision (maxRatioR a [b]) (.polynomial, some p) =
        .ok (.thetaPow p)) :=
  ⟨maxRatioR_single a b,
    fun h => complexDecision_poly_tie _ _ h,
    fun h1 h2 => complexDecision_poly_gt _ _ h1 h2,
    fun h1 h2 => complexDecision_poly_le _ _ h1 h2⟩

/-- Claim C4 witness at a = b = 2, f = "n", p = 1. -/
theorem c4_amended_witness :
    (2 : ℕ) ≤ 2 ∧
    parse_fn_growth "n" = .ok (.polynomial, some (.pint 1)) ∧
    (maxRatioR 2 [2] = Real.log ((2 : ℕ) : ℝ) / Real.log ((2 : ℕ) : ℝ) ∧
      (|maxRatioR 2 [2] - (PyRat.pint 1).toReal| < 1e-10 →
        complexDecision (maxRatioR 2 [2]) (.polynomial, some (.pint 1)) =
          .ok (.thetaPowLog (.pint 1))) ∧
      (¬ |maxRatioR 2 [2] - (PyRat.pint 1).toReal| < 1e-10 →
        (PyRat.pint 1).toReal < maxRatioR 2 [2] →
        complexDecision (maxRatioR 2 [2]) (.polynomial, some (.pint 1)) =
          .ok (.thetaPowMax (maxRatioR 2 [2]))) ∧
      (¬ |maxRatioR 2 [2] - (PyRat.pint 1).toReal| < 1e-10 →
        ¬ (PyRat.pint 1).toReal < maxRatioR 2 [2] →
        complexDecision (maxRatioR 2 [2]) (.polynomial, some (.pint 1)) =
          .ok (.thetaPow (.pint 1)))) :=
  ⟨le_refl 2, rfl, c4_amended 2 2 "n" (.pint 1) (le_refl 2) rfl⟩

/-- Claim C5 counterexample: the classifier maps "n*log(n)" to
    (logarithmic, 0) — there is no "n^"/"n**" marker, so the n_log branch
    is not taken — contradicting the claimed (n_log, 1); and the returned
    solution string is "Θ(n^1.0)" (float rendering), not "Θ(n^1)". -/
theorem c5_counterexample :
    parse_fn_growth "n*log(n)" = .ok (.logarithmic, some (.pint 0)) ∧
    parse_fn_growth "n*log(n)" ≠ .ok (.nLog, some (.pint 1)) ∧
    (∃ st, solve (parse_recurrence emptySession
        "T(n) = T(n/2) + T(n/6) + n*log(n)").2 none = .ok (some "Θ(n^1.0)", st)) ∧
    "Θ(n^1.0)" ≠ "Θ(n^1)" := by
  obtain ⟨st, h⟩ := solve_c5
  exact ⟨rfl, by decide, ⟨st, h⟩, by decide⟩

/-- Claim C5 (amended): parsing T(n) = T(n/2) + T(n/6) + n*log(n) yields
    the two subproblems (1,2) and (1,6) with f-text "n*log(n)"; during
    solve, totalA = 2 and maxRatio = 1, f is classified as
    (logarithmic, 0), and since maxRatio > 0 the logarithmic row returns
    Θ(n^maxRatio), rendered "Θ(n^1.0)". -/
theorem c5_amended :
    parseRec "T(n) = T(n/2) + T(n/6) + n*log(n)" =
      some (.complexDivideAndConquer [(1, 2), (1, 6)] "n*log(n)") ∧
    parse_fn_growth "n*log(n)" = .ok (.logarithmic, some (.pint 0)) ∧
    (([(1, 2), (1, 6)] : List (ℕ × ℕ)).map Prod.fst).sum = 2 ∧
    maxRatioR 2 [2, 6] = 1 ∧
    ∃ st, solve (parse_recurrence emptySession
        "T(n) = T(n/2) + T(n/6) + n*log(n)").2 none = .ok (some "Θ(n^1.0)", st) := by
  obtain ⟨st, h⟩ := solve_c5
  exact ⟨rfl, rfl, rfl, maxRatioR_two_two_six, st, h⟩

/-- Claim C6 (code_bug evidence): solving the parsed T(n) = T(n-1) + 1 by
    the iteration method raises AttributeError — solve_using_iteration is
    defined nowhere in the class — instead of returning a result
    consistent with Θ(n). -/
theorem c6_iteration_attribute_error :
    solve (parse_recurrence emptySession "T(n) = T(n-1) + 1").2 (some "iteration") =
      .error (.attributeError "solve_using_iteration") := by
  rw [parse_dec_session]
  rfl

/-- Claim C7 (code_bug evidence): a successful solve on the complex
    divide-and-conquer path returns before the assignment to
    execution_time, so the duration is not recorded. -/
theorem c7_execution_time_unwritten :
    ∃ st, solve (parse_recurrence emptySession "T(n) = 2T(n/2) + n").2 none =
      .ok (some "Θ(n^1 log n)", st) ∧ st.execution_time_written = false := by
  obtain ⟨st, h, hw, -⟩ := solve_c2
  exact ⟨st, h, hw⟩

/-- Claim C8 counterexample: the input T(n) = 0T(n/1) + n parses to a
    complex record whose single subproblem has a = 0 and b = 1, violating
    the claimed constraints a ≥ 1 and b ≥ 2. -/
theorem c8_counterexample :
    parseRec "T(n) = 0T(n/1) + n" =
      some (.complexDivideAndConquer [(0, 1)] "n") ∧
    ¬ (∀ ab ∈ ([((0 : ℕ), (1 : ℕ))] : List (ℕ × ℕ)), 1 ≤ ab.1 ∧ 2 ≤ ab.2) := by
  exact ⟨rfl, by decide⟩

/-- Claim C8 (amended): the parser extracts coefficient and divisor as
    raw digit runs with no validation — the coefficient defaults to 1
    only when absent, and a = 0 or b ∈ {0, 1} are accepted as-is; the
    data-model bounds are expectations on the input, not parser-enforced
    invariants. -/
theorem c8_amended :
    parseRec "T(n) = T(n/2) + n" = some (.complexDivideAndConquer [(1, 2)] "n") ∧
    parseRec "T(n) = 0T(n/1) + n" = some (.complexDivideAndConquer [(0, 1)] "n") :=
  ⟨rfl, rfl⟩

/-- Claim C9 counterexample: the text "n2" reaches classifier rule 3
    (it contains "n", matches no constant literal, has no "log"/"ln")
    and contains none of "n^", "n**", "n *", "n*", yet the exponent
    search finds the digit run "2" right after the "n", so the
    classifier returns (polynomial, 2.0), not (polynomial, 1). -/
theorem c9_counterexample :
    (normalizeF "n2" ≠ "1".toList ∧ normalizeF "n2" ≠ "o(1)".toList ∧
      normalizeF "n2" ≠ "θ(1)".toList ∧
      containsStr "constant".toList (normalizeF "n2") = false ∧
      containsStr "log".toList (normalizeF "n2") = false ∧
      containsStr "ln".toList (normalizeF "n2") = false ∧
      containsStr "n".toList (normalizeF "n2") = true ∧
      containsStr "n^".toList (normalizeF "n2") = false ∧
      containsStr "n**".toList (normalizeF "n2") = false ∧
      containsStr "n *".toList (normalizeF "n2") = false ∧
      containsStr "n*".toList (normalizeF "n2") = false) ∧
    parse_fn_growth "n2" = .ok (.polynomial, some (.pfloat 2)) ∧
    parse_fn_growth "n2" ≠ .ok (.polynomial, some (.pint 1)) := by
  refine ⟨by decide, ?_, ?_⟩
  · have hval : (2 : ℚ) = ((2 : ℕ) : ℚ) := by norm_num
    rw [hval]
    rfl
  · intro h
    have h2 : parse_fn_growth "n2" = .ok (.polynomial, some (.pfloat ((2 : ℕ) : ℚ))) := rfl
    rw [h2] at h
    simp at h

/-- Claim C9 (amended): for every text that reaches classifier rule 3
    (contains "n" after normalisation, no constant match, no
    "log"/"ln"), contains none of the four multiplication/power markers,
    and whose exponent search at the first "n" captures no digits, the
    classifier returns (polynomial, 1). Without the empty-capture
    condition, a digit run following the "n" (as in "n2") yields
    (polynomial, float(digits)) instead. -/
theorem c9_amended (f : String)
    (hc1 : normalizeF f ≠ "1".toList) (hc2 : normalizeF f ≠ "o(1)".toList)
    (hc3 : normalizeF f ≠ "θ(1)".toList)
    (hc4 : containsStr "constant".toList (normalizeF f) = false)
    (hlog : containsStr "log".toList (normalizeF f) = false)
    (hln : containsStr "ln".toList (normalizeF f) = false)
    (hn : containsStr "n".toList (normalizeF f) = true)
    (hm1 : containsStr "n^".toList (normalizeF f) = false)
    (hm2 : containsStr "n**".toList (normalizeF f) = false)
    (hm3 : containsStr "n *".toList (normalizeF f) = false)
    (hm4 : containsStr "n*".toList (normalizeF f) = false)
    (hcap : searchPowerCapture (normalizeF f) = some []) :
    parse_fn_growth f = .ok (.polynomial, some (.pint 1)) := by
  have hb1 : (normalizeF f == "1".toList) = false := beq_eq_false_iff_ne.mpr hc1
  have hb2 : (normalizeF f == "o(1)".toList) = false := beq_eq_false_iff_ne.mpr hc2
  have hb3 : (normalizeF f == "θ(1)".toList) = false := beq_eq_false_iff_ne.mpr hc3
  rw [parse_fn_growth]
  simp only [hb1, hb2, hb3, hc4, hlog, hln, hn, hm1, hm2, hm3, hm4, hcap,
    Bool.or_self, Bool.or_false, Bool.false_or, Bool.not_false, Bool.and_self,
    Bool.and_true, Bool.true_and, if_false, if_true, Bool.false_eq_true,
    bne_self_eq_false]
  have hn' : containsStr ['n'] (normalizeF f) = true := hn
  rw [if_pos hn']

/-- Claim C9 witness at the text "n". -/
theorem c9_amended_witness :
    (normalizeF "n" ≠ "1".toList ∧ normalizeF "n" ≠ "o(1)".toList ∧
      normalizeF "n" ≠ "θ(1)".toList ∧
      containsStr "constant".toList (normalizeF "n") = false ∧
      containsStr "log".toList (normalizeF "n") = false ∧
      containsStr "ln".toList (normalizeF "n") = false ∧
      containsStr "n".toList (normalizeF "n") = true ∧
      containsStr "n^".toList (normalizeF "n") = false ∧
      containsStr "n**".toList (normalizeF "n") = false ∧
      containsStr "n *".toList (normalizeF "n") = false ∧
      containsStr "n*".toList (normalizeF "n") = false ∧
      searchPowerCapture (normalizeF "n") = some []) ∧
    parse_fn_growth "n" = .ok (.polynomial, some (.pint 1)) :=
  ⟨by decide,
    c9_amended "n" (by decide) (by decide) (by decide) (by decide) (by decide)
      (by decide) (by decide) (by decide) (by decide) (by decide) (by decide)
      (by decide)⟩

/-- Claim C10: the formatter substitution is pure with the stated fixed
    points — format("Theta(n^2)") = "Θ(n²)", and the returned string is
    a fixed point of the substitution (idempotence). -/
theorem c10_formatter :
    formatStr "Theta(n^2)" = "Θ(n²)" ∧
      ∀ x : String, formatStr (formatStr x) = formatStr x := by
  refine ⟨by decide, fun x => ?_⟩
  show String.mk (formatL (String.mk (formatL x.toList)).toList) =
    String.mk (formatL x.toList)
  rw [show (String.mk (formatL x.toList)).toList = formatL x.toList from rfl,
    formatL_idem]

end CCP
